import Mathlib

/-!
Verification of the DIM station/edge (dimples) message-routing runtime.

The Lean definitions below are a shallow embedding of the Python sources:

* `dimples/database/t_message.py` — the offline message store
  (`ReliableMessageTable`: `find_message`, `get_range`, `reliable_messages`,
  `cache_reliable_message`, `remove_reliable_message`);
* `dimples/database/message.py` — `MessageDatabase.reliable_messages`;
* `dimples/server/session.py` — `load_cached_messages`;
* `dimples/conn/gatekeeper.py` — `GateKeeper.set_active`;
* `dimples/server/cpu/handshake.py` — `HandshakeCommandProcessor.process`;
* `dimples/common/protocol/handshake.py` — the handshake command factories;
* `dimples/server/messenger.py` — `ServerMessenger.verify_message`;
* `dimples/server/delivering.py` — `DefaultRoamer.roam_message`, `push_twice`;
* `dimples/edge/octopus.py` — `Octopus.outgo_message`;
* `dimples/server/broadcast.py` — `BroadcastRecipientManager.get_recipients`
  and `broadcast_reliable_message`.

Machine integers of the source are Python's unbounded `int`, embedded as
`Int`/`Nat`.  External collaborators (the dimsdk cryptography, socket gates,
the dispatcher) enter as parameters.  Definitions whose Python source is not
part of the repository snapshot (the `Filter` and `SessionCenter` modules) are
modelled from the specification text and say so in their doc comment.
-/

namespace Dimples

/-! ## Identifiers (dimsdk `ID` / `EntityType`)

An identifier is `name@address[/terminal]` with a numeric network type.  Only
equality, the broadcast predicate (address `anywhere` / `everywhere`), the
user/group predicate (lowest bit of the type) and the STATION type code are
consulted by the embedded logic. -/

namespace EntityType

def USER : Nat := 0x00

def GROUP : Nat := 0x01

def STATION : Nat := 0x88

def BOT : Nat := 0x48

end EntityType

structure ID where
  name : Option String
  address : String
  etype : Nat
deriving DecidableEq

/-- `ID.is_broadcast`: the address part is `anywhere` or `everywhere`. -/
def ID.is_broadcast (i : ID) : Bool :=
  i.address == "anywhere" || i.address == "everywhere"

/-- `ID.is_group`: the network type carries the group bit. -/
def ID.is_group (i : ID) : Bool :=
  i.etype % 2 == 1

/-- `ID.is_user`: the network type does not carry the group bit. -/
def ID.is_user (i : ID) : Bool :=
  i.etype % 2 == 0

/-- The broadcast singleton `anyone@anywhere`. -/
def ANYONE : ID := ⟨some "anyone", "anywhere", EntityType.USER⟩

/-- The broadcast singleton `everyone@everywhere` (a group). -/
def EVERYONE : ID := ⟨some "everyone", "everywhere", EntityType.GROUP⟩

namespace Station

/-- The broadcast singleton `station@anywhere`. -/
def ANY : ID := ⟨some "station", "anywhere", EntityType.STATION⟩

/-- The broadcast singleton `stations@everywhere`. -/
def EVERY : ID := ⟨some "stations", "everywhere", EntityType.STATION⟩

end Station

/-! ## ReliableMessage

A signed ciphertext envelope.  The payload is opaque to the station; the
embedded fields are the ones the routing logic reads or writes: `sender`,
`receiver`, the opaque `signature` (compared only for equality, embedded as an
optional token), and the transport metadata `traces`, `recipients`, `target`,
`neighbor`. -/

structure RMsg where
  sender : ID
  receiver : ID
  signature : Option Nat
  traces : List ID
  recipients : List ID
  target : Option ID
  neighbor : Option ID
deriving DecidableEq

/-! ## Offline message store (`dimples/database/t_message.py`)

The table keeps, per receiver, a FIFO list of messages.  All operations below
act on one receiver's entry of the cache pool: `none` when the pool holds no
list for the receiver, `some messages` otherwise. -/

namespace ReliableMessageTable

def CACHE_LIMIT : Nat := 71680

/-- `find_message(msg, messages)`: index of the first stored message whose
`signature` equals the probe's, else `-1`. -/
def find_message (msg : RMsg) : List RMsg → Int
  | [] => -1
  | item :: rest =>
    if item.signature = msg.signature then 0
    else
      let i := find_message msg rest
      if i < 0 then -1 else i + 1

/-- The overflow loop of `cache_reliable_message`:
`while len(messages) > CACHE_LIMIT: messages.pop(0)`. -/
def trim_overflow (messages : List RMsg) : List RMsg :=
  if messages.length > CACHE_LIMIT then trim_overflow messages.tail else messages
termination_by messages.length
decreasing_by
  simp only [List.length_tail]
  omega

/-- `cache_reliable_message(msg, receiver)`: returns the receiver's updated
entry and the reported success.  A message whose signature is already stored
is refused; otherwise the head is dropped while over `CACHE_LIMIT` and the
message appended to the tail. -/
def cache_reliable_message (msg : RMsg) (stored : Option (List RMsg)) :
    Option (List RMsg) × Bool :=
  match stored with
  | none => (some [msg], true)
  | some messages =>
    if 0 ≤ find_message msg messages then
      (some messages, false)
    else
      (some (trim_overflow messages ++ [msg]), true)

/-- `remove_reliable_message(msg, receiver)`: drop the first stored message
with the probe's signature; report whether one was found. -/
def remove_reliable_message (msg : RMsg) (stored : Option (List RMsg)) :
    Option (List RMsg) × Bool :=
  match stored with
  | none => (none, false)
  | some messages =>
    let index := find_message msg messages
    if index < 0 then (some messages, false)
    else (some (messages.eraseIdx index.toNat), true)

/-- `get_range(start, limit, total)`: make the range `[start, end)`; a
negative `start` counts from the tail. -/
def get_range (start limit : Int) (total : Nat) : Int × Int :=
  let s : Int :=
    if start < 0 then
      (if start + total < 0 then 0 else start + total)
    else if start > total then total
    else start
  let e : Int := s + limit
  let e : Int := if e > total then total else e
  (s, e)

/-- `reliable_messages(receiver, start, limit)`: the slice `[start, end)` of
the receiver's FIFO together with the count not yet returned. -/
def reliable_messages (stored : Option (List RMsg)) (start limit : Int) :
    List RMsg × Int :=
  let messages := stored.getD []
  let total := messages.length
  let r := get_range start limit total
  let s := r.1
  let e := r.2
  let messages :=
    if 0 < s ∨ e < total then (messages.drop s.toNat).take (e - s).toNat
    else messages
  (messages, (total : Int) - e)

end ReliableMessageTable

/-! ## `MessageDatabase` (`dimples/database/message.py`) and the offline
reload loop (`dimples/server/session.py`) -/

namespace MessageDatabase

/-- `MessageDatabase.reliable_messages(receiver, start, limit)` delegates to
the table passing only the receiver, so the table runs with its own defaults
`start=0, limit=1024`. -/
def reliable_messages (stored : Option (List RMsg)) (start limit : Int) :
    List RMsg × Int :=
  ReliableMessageTable.reliable_messages stored 0 1024

end MessageDatabase

/-- The `while remaining > 0` loop of `load_cached_messages`, returning the
pages queued for the session in order.  The loop body fetches a page through
`MessageDatabase.reliable_messages`, advances `start` by `limit = 1024`,
queues the page, and breaks once the queued total exceeds `CACHE_LIMIT`; it
is embedded with explicit fuel, one unit per iteration. -/
def load_cached_pages (stored : Option (List RMsg)) :
    Nat → Int → Nat → List (List RMsg)
  | 0, _, _ => []
  | fuel + 1, start, total =>
    let r := MessageDatabase.reliable_messages stored start 1024
    let messages := r.1
    let remaining := r.2
    let start := start + 1024
    let cnt := messages.length
    let total := total + cnt
    if total > ReliableMessageTable.CACHE_LIMIT then [messages]
    else if remaining > 0 then messages :: load_cached_pages stored fuel start total
    else [messages]

/-! ## `GateKeeper.set_active` (`dimples/conn/gatekeeper.py`)

The per-connection activity flag with its last-update timestamp.  Timestamps
are embedded as `Int` (Python float seconds, totally ordered); `now` stands
for `time.time()`. -/

structure GateKeeper where
  active : Bool
  last_active : Int
deriving DecidableEq

namespace GateKeeper

/-- `set_active(active, when)`: a missing or non-positive `when` is replaced
by the current time; an explicit `when` not later than the last recorded
timestamp is refused; the flag and timestamp change only when the new value
differs. -/
def set_active (st : GateKeeper) (active : Bool) (when : Option Int)
    (now : Int) : GateKeeper × Bool :=
  match when with
  | none =>
    if st.active ≠ active then (⟨active, now⟩, true) else (st, false)
  | some w =>
    if w ≤ 0 then
      if st.active ≠ active then (⟨active, now⟩, true) else (st, false)
    else if w ≤ st.last_active then (st, false)
    else if st.active ≠ active then (⟨active, w⟩, true) else (st, false)

end GateKeeper

/-! ## Handshake (`dimples/common/protocol/handshake.py`,
`dimples/server/cpu/handshake.py`)

A content is either a handshake command (`title`, optional `session` key) or
a plain text response; session keys are the hex strings of
`generate_session_key`, embedded as `String`. -/

inductive Content where
  | handshake (title : String) (session : Option String)
  | text (message : String)
deriving DecidableEq

namespace HandshakeCommand

/-- `HandshakeCommand.offer` / `start` / `restart`: `Hello world!`. -/
def offer (session : Option String) : Content :=
  .handshake "Hello world!" session

/-- `HandshakeCommand.ask` / `again`: `DIM?` with the new session key. -/
def ask (session : String) : Content :=
  .handshake "DIM?" (some session)

/-- `HandshakeCommand.accepted` / `success`: `DIM!`. -/
def accepted (session : Option String) : Content :=
  .handshake "DIM!" session

end HandshakeCommand

/-- The server session state the handshake processor touches: the session key
generated at construction, the bound identifier, the active flag. -/
structure SessionSt where
  key : String
  identifier : Option ID
  active : Bool
deriving DecidableEq

/-- The process-wide session index, embedded as the list of
(user ID, session key) bindings it holds. -/
abbrev SessionCenter := List (ID × String)

/-- Modelled from the spec: `SessionCenter.update_session` (module
`dimples/server/session_center.py`, absent from the snapshot): on handshake
acceptance the station "binds `identifier = envelope.sender` into the
Session ... and moves the Session under that ID in SessionCenter".  Moving
removes the session's binding under any previous ID and inserts it under the
new one. -/
def SessionCenter.update_session (center : SessionCenter) (skey : String)
    (identifier : ID) : SessionCenter :=
  (center.filter (fun p => p.2 != skey)) ++ [(identifier, skey)]

/-- `handshake_accepted(identifier, session)`: move the session under the
sender's ID in the center, bind the identifier, and mark the session
active. -/
def handshake_accepted (identifier : ID) (sess : SessionSt)
    (center : SessionCenter) : SessionSt × SessionCenter :=
  let center := SessionCenter.update_session center sess.key identifier
  let sess := { sess with identifier := some identifier, active := true }
  (sess, center)

/-- `HandshakeCommandProcessor.process(content, msg)`: a station-to-client
title is an error; for `Hello world!` the presented `session` is compared
with the key this session issued.  Returns the updated session, the updated
center and the responded contents. -/
def hs_process (content : Content) (sender : ID) (sess : SessionSt)
    (center : SessionCenter) : SessionSt × SessionCenter × List Content :=
  match content with
  | .handshake title session =>
    if title = "DIM?" ∨ title = "DIM!" then
      (sess, center, [.text ("Handshake command error: " ++ title)])
    else if session = some sess.key then
      let r := handshake_accepted sender sess center
      (r.1, r.2, [HandshakeCommand.accepted (some r.1.key)])
    else
      (sess, center, [HandshakeCommand.ask sess.key])
  | .text t => (sess, center, [.text ("Handshake command error: " ++ t)])

/-! ## `ServerMessenger.verify_message` (`dimples/server/messenger.py`) -/

/-- Modelled from the spec: `Filter.check_traced` (module
`dimples/server/filter.py`, absent from the snapshot): "If `traces` already
contains the local station ID, drop messages whose receiver is a station or
is broadcast.  Otherwise append the local station ID to `traces` and
continue."  Returns whether the message was already traced, together with the
updated traces. -/
def check_traced (traces : List ID) (station : ID) : Bool × List ID :=
  if station ∈ traces then (true, traces) else (false, traces ++ [station])

/-- The collaborators `verify_message` consults: the local station's ID, the
trust shortcut and signature verdict (`Filter.trusted_sender` and the base
messenger's signature check), the current session, and the response contents
the dispatcher returns for a delivered message. -/
structure VerifyEnv where
  localId : ID
  trusted : ID → Bool
  signatureValid : Bool
  sessionId : Option ID
  sessionActive : Bool
  sessionKey : String
  responses : List Content

/-- One content sent back through the messenger: (sender, receiver, content)
of `send_content`. -/
abbrev Sent := ID × ID × Content

/-- Steps 1-5 of `ServerMessenger.verify_message`, after the cycle check:
signature verification, the current-station shortcut, the session gate, and
delivery with the dispatcher's responses.  Returns the secure message (the
envelope itself when it is to be processed locally) and the contents sent
back to the sender. -/
def verify_tail (env : VerifyEnv) (msg : RMsg) : Option RMsg × List Sent :=
  -- 1. verify message (skipped for a trusted sender)
  let s_msg : Option RMsg :=
    if env.trusted msg.sender then some msg
    else if env.signatureValid then some msg else none
  match s_msg with
  | none => (none, [])
  | some s =>
    -- 2. check message for current station
    if msg.receiver = env.localId then (some s, [])
    else if msg.receiver.is_broadcast ∧ msg.receiver.is_user ∧
        (msg.receiver = Station.ANY ∨ msg.receiver = ANYONE) then (some s, [])
    -- 3. check session for delivering
    else if env.sessionId = none ∨ env.sessionActive = false then
      (none, [(env.localId, msg.sender, HandshakeCommand.ask env.sessionKey)])
    else
      -- 4. deliver message and respond to sender; 5. broadcast group copy
      let sent := env.responses.map (fun res => (env.localId, msg.sender, res))
      if msg.receiver.is_broadcast ∧ msg.receiver.is_group then (some s, sent)
      else (none, sent)

/-- `ServerMessenger.verify_message(msg)`: the cycle check (step 0) followed
by `verify_tail`.  Returns the secure message, the sent contents, and the
message as mutated (its `traces`). -/
def verify_message (env : VerifyEnv) (msg : RMsg) :
    Option RMsg × List Sent × RMsg :=
  let tr := check_traced msg.traces env.localId
  let msg := { msg with traces := tr.2 }
  if tr.1 ∧ (msg.sender.etype = EntityType.STATION ∨
      msg.receiver.etype = EntityType.STATION) then
    (none, [], msg)
  else if tr.1 ∧ msg.receiver.is_broadcast then
    (none, [], msg)
  else
    let r := verify_tail env msg
    (r.1, r.2, msg)

/-! ## Roamer (`dimples/server/delivering.py`)

Sessions enter only through `send_reliable_message`, so a session is embedded
as the Boolean verdict of that push; the center's `active_sessions` is the
map from a station ID to its sessions' verdicts. -/

/-- `push_once(msg, sessions)`: push until one session accepts. -/
def push_once (sessions : List Bool) : Bool :=
  sessions.any (fun ok => ok)

/-- `push_twice(msg, target, roaming, bridge)`: push to the roaming station's
sessions unchanged; on failure set `msg['target']` and push to the bridge
(the sessions bound to the current station's own ID).  Returns the message as
mutated and whether a session accepted it. -/
def push_twice (msg : RMsg) (target roaming bridge : ID)
    (active_sessions : ID → List Bool) : RMsg × Bool :=
  if push_once (active_sessions roaming) then (msg, true)
  else
    let msg := { msg with target := some target }
    if push_once (active_sessions bridge) then (msg, true) else (msg, false)

/-- `DefaultRoamer.roam_message(msg, receiver)`: a station receiver is its
own roaming target; otherwise the roaming station comes from the stored
LoginCommand (`get_roaming_station`, embedded as `loginStation`).  No
LoginCommand or a roaming station equal to the current one reports failure
without touching the message. -/
def roam_message (loginStation : ID → Option ID)
    (active_sessions : ID → List Bool) (current : ID)
    (msg : RMsg) (receiver : ID) : RMsg × Bool :=
  let roaming? : Option ID :=
    if receiver.etype = EntityType.STATION then some receiver
    else loginStation receiver
  match roaming? with
  | none => (msg, false)
  | some roaming =>
    if current = roaming then (msg, false)
    else push_twice msg receiver roaming current active_sessions

/-! ## Octopus outgoing fan-out (`dimples/edge/octopus.py`) -/

namespace Octopus

/-- `Octopus.outgo_message(msg)`: the targets are the pinned `neighbor` when
present (popped from the message), else the connected peer stations
(`outer_map` keys); targets already in `msg['recipients']` are skipped and
`recipients` is extended before the send loop.  Returns the message as
forwarded, the new recipients, and the forwarded copies (target, message)
in send order. -/
def outgo_message (outerKeys : List ID) (msg : RMsg) :
    RMsg × List ID × List (ID × RMsg) :=
  let p : List ID × RMsg :=
    match msg.neighbor with
    | some nb => ([nb], { msg with neighbor := none })
    | none => (outerKeys, msg)
  let neighbors := p.1
  let msg := p.2
  let old_recipients := msg.recipients
  let new_recipients := neighbors.filter (fun item => !(old_recipients.contains item))
  let all_recipients := old_recipients ++ new_recipients
  let msg := { msg with recipients := all_recipients }
  (msg, new_recipients, new_recipients.map (fun t => (t, msg)))

end Octopus

/-! ## Server broadcast expansion (`dimples/server/broadcast.py`) -/

namespace BroadcastRecipientManager

/-- `BroadcastRecipientManager.get_recipients(msg, receiver)`: neighbor
stations (plus the station bots for `everyone@everywhere`) minus the IDs in
`msg['traces']`; a user-broadcast name resolves through the ANS registry.
`all_neighbors` and `station_bots` are the manager's tables, `ans` the
registry. -/
def get_recipients (all_neighbors station_bots : List ID)
    (ans : String → Option ID) (msg : RMsg) (receiver : ID) : List ID :=
  let traces := msg.traces
  if receiver = Station.EVERY ∨ receiver = EVERYONE then
    let rs := all_neighbors.filter (fun sid => !(traces.contains sid))
    if receiver = EVERYONE then
      rs ++ station_bots.filter (fun bid => !(traces.contains bid))
    else rs
  else if receiver.is_user then
    match receiver.name with
    | none => []
    | some nm =>
      match ans nm with
      | some bot => if traces.contains bot then [] else [bot]
      | none => []
  else []

/-- The dispatch loop of `broadcast_reliable_message(msg, station)`: every
recipient other than the current station and the sender is handed to the
dispatcher, with the message as it arrived (its `recipients` field is never
read or written on this path). -/
def broadcast_targets (all_neighbors station_bots : List ID)
    (ans : String → Option ID) (station : ID) (msg : RMsg) : List ID :=
  let recipients := get_recipients all_neighbors station_bots ans msg msg.receiver
  recipients.filter (fun t => !(t == station) && !(t == msg.sender))

end BroadcastRecipientManager

/-! ## Derived definitions used by the statements below -/

/-- The offline-fetch contract as the specification words it: `start'` is
`start` clamped into `[0, n]`, a negative `start` counting from the tail
(`start + n`, floored at `0`); `end = min(start' + limit, n)`; the result is
the slice `[start', end)` and `remaining = n - end`. -/
def fetch_spec (stored : Option (List RMsg)) (start limit : Int) :
    List RMsg × Int :=
  let messages := stored.getD []
  let n := messages.length
  let s : Int := if start < 0 then max (start + n) 0 else min start n
  let e : Int := min (s + limit) n
  ((messages.drop s.toNat).take (e - s).toNat, (n : Int) - e)

/-- Repeated `cache_reliable_message` for one receiver, oldest first. -/
def save_all (msgs : List RMsg) (stored : Option (List RMsg)) :
    Option (List RMsg) :=
  msgs.foldl (fun st m => (ReliableMessageTable.cache_reliable_message m st).1) stored

/-- The per-receiver store invariant every reachable store satisfies: no two
stored messages share a signature (`cache_reliable_message` refuses
duplicates). -/
def uniqueSigs (stored : Option (List RMsg)) : Prop :=
  ((stored.getD []).map RMsg.signature).Nodup

/-- A family of messages with pairwise distinct signatures. -/
def mkMsg (i : Nat) : RMsg :=
  { sender := ⟨some "alice", "client.example", EntityType.USER⟩,
    receiver := ⟨some "bob", "client.example", EntityType.USER⟩,
    signature := some i, traces := [], recipients := [],
    target := none, neighbor := none }

/-- The first `n` messages of the family, in insertion order. -/
def bulkMsgs (n : Nat) : List RMsg := (List.range n).map mkMsg

/-- A concrete local station identifier. -/
def localStation : ID := ⟨some "gsp", "station.example", EntityType.STATION⟩

/-- A concrete neighbor station identifier. -/
def s1 : ID := ⟨some "s1", "one.example", EntityType.STATION⟩

/-- A second concrete neighbor station identifier. -/
def s2 : ID := ⟨some "s2", "two.example", EntityType.STATION⟩

/-- A concrete user identifier. -/
def alice : ID := ⟨some "alice", "client.example", EntityType.USER⟩

/-- A concrete inbound message from `alice` to another user, untraced. -/
def msgC4 : RMsg :=
  { sender := alice, receiver := ⟨some "bob", "client.example", EntityType.USER⟩,
    signature := some 7, traces := [], recipients := [],
    target := none, neighbor := none }

/-- A messenger environment with an unauthenticated session (no bound
identifier, inactive). -/
def envC4 : VerifyEnv :=
  { localId := localStation, trusted := fun _ => true, signatureValid := true,
    sessionId := none, sessionActive := false, sessionKey := "SESSIONKEY",
    responses := [] }

/-- A broadcast message to `stations@everywhere` that already carries `s1` in
its `recipients` list. -/
def msgC2 : RMsg :=
  { sender := alice, receiver := Station.EVERY,
    signature := some 9, traces := [], recipients := [s1],
    target := none, neighbor := none }

/-! # Supporting lemmas -/

namespace ReliableMessageTable

theorem find_message_neg_iff (msg : RMsg) (l : List RMsg) :
    find_message msg l < 0 ↔ ∀ x ∈ l, x.signature ≠ msg.signature := by
  induction l with
  | nil => simp [find_message]
  | cons a t ih =>
    by_cases h : a.signature = msg.signature
    · simp [find_message, h]
    · simp only [find_message, h, if_false]
      by_cases ht : find_message msg t < 0
      · simp only [ht, if_true]
        simp only [List.mem_cons]
        constructor
        · intro _ x hx
          rcases hx with hx | hx
          · subst hx; exact h
          · exact (ih.mp ht) x hx
        · intro _; omega
      · simp only [ht, if_false]
        simp only [List.mem_cons]
        constructor
        · intro hlt; omega
        · intro hall
          exact absurd (ih.mpr (fun x hx => hall x (Or.inr hx))) ht

theorem trim_overflow_of_le (l : List RMsg) (h : l.length ≤ CACHE_LIMIT) :
    trim_overflow l = l := by
  rw [trim_overflow]
  simp [Nat.not_lt.mpr h]

theorem get_range_fst (start limit : Int) (total : Nat) :
    (get_range start limit total).1 =
      if start < 0 then max (start + total) 0 else min start total := by
  simp only [get_range]
  split_ifs <;> omega

theorem get_range_snd (start limit : Int) (total : Nat) :
    (get_range start limit total).2 =
      min ((get_range start limit total).1 + limit) total := by
  simp only [get_range]
  split_ifs <;> omega

theorem get_range_bounds (start limit : Int) (total : Nat) :
    0 ≤ (get_range start limit total).1 ∧
      (get_range start limit total).2 ≤ total := by
  simp only [get_range]
  split_ifs <;> constructor <;> omega

theorem reliable_messages_eq (stored : Option (List RMsg)) (start limit : Int) :
    reliable_messages stored start limit =
      (((stored.getD []).drop
          (get_range start limit (stored.getD []).length).1.toNat).take
        ((get_range start limit (stored.getD []).length).2 -
          (get_range start limit (stored.getD []).length).1).toNat,
       ((stored.getD []).length : Int) -
        (get_range start limit (stored.getD []).length).2) := by
  simp only [reliable_messages]
  by_cases h : 0 < (get_range start limit (stored.getD []).length).1 ∨
      (get_range start limit (stored.getD []).length).2 < (stored.getD []).length
  · simp [h]
  · simp only [h, if_false]
    have hb := get_range_bounds start limit (stored.getD []).length
    push_neg at h
    have hs : (get_range start limit (stored.getD []).length).1 = 0 := by omega
    have he : (get_range start limit (stored.getD []).length).2 =
        (stored.getD []).length := by omega
    rw [hs, he]
    simp [List.take_length]

theorem find_message_cons_self (msg a : RMsg) (t : List RMsg)
    (h : a.signature = msg.signature) : find_message msg (a :: t) = 0 := by
  simp [find_message, h]

theorem find_message_erase_found (msg : RMsg) (l : List RMsg)
    (hnd : (l.map RMsg.signature).Nodup)
    (hk : 0 ≤ find_message msg l) :
    find_message msg (l.eraseIdx (find_message msg l).toNat) < 0 := by
  induction l with
  | nil => simp [find_message] at hk
  | cons a t ih =>
    rw [List.map_cons, List.nodup_cons] at hnd
    by_cases h : a.signature = msg.signature
    · rw [find_message_cons_self msg a t h]
      show find_message msg t < 0
      rw [find_message_neg_iff]
      intro x hx he
      exact hnd.1 (h ▸ he ▸ List.mem_map_of_mem RMsg.signature hx)
    · by_cases ht : find_message msg t < 0
      · have : find_message msg (a :: t) = -1 := by
          simp [find_message, h, ht]
        omega
      · have hfind : find_message msg (a :: t) = find_message msg t + 1 := by
          simp [find_message, h, ht]
        rw [hfind]
        have htn : (find_message msg t + 1).toNat = (find_message msg t).toNat + 1 := by
          omega
        rw [htn]
        show find_message msg (a :: t.eraseIdx (find_message msg t).toNat) < 0
        have hrec := ih hnd.2 (by omega)
        simp [find_message, h, hrec]

end ReliableMessageTable

/-! # The claims -/

/-- **C6.** Offline store fetch contract: for every stored list and every
`(start, limit)` with `limit > 0`, `reliable_messages` returns the contiguous
slice `[start', end)` of the FIFO, where `start'` is `start` clamped into
`[0, n]` (negative `start` counted from the tail, floored at `0`),
`end = min(start' + limit, n)`, together with `remaining = n - end`; that is,
it equals the specification's `fetch_spec`. -/
theorem c6_offline_fetch_contract (stored : Option (List RMsg))
    (start limit : Int) (hl : 0 < limit) :
    ReliableMessageTable.reliable_messages stored start limit =
      fetch_spec stored start limit := by
  rw [ReliableMessageTable.reliable_messages_eq]
  simp only [fetch_spec, ReliableMessageTable.get_range_snd,
    ReliableMessageTable.get_range_fst]

/-- Witness for C6 at a concrete store of four messages and `start = -3`,
`limit = 2`. -/
theorem c6_witness :
    ReliableMessageTable.reliable_messages (some (bulkMsgs 4)) (-3) 2 =
      fetch_spec (some (bulkMsgs 4)) (-3) 2 :=
  c6_offline_fetch_contract (some (bulkMsgs 4)) (-3) 2 (by norm_num)

/-- **C8.** Offline store idempotence by signature: on a store whose
signatures are pairwise distinct (the invariant the API maintains), saving
the same message a second time returns `false` and leaves the entry
unchanged, and removing a message a second time after a successful removal
returns `false` and leaves the entry unchanged. -/
theorem c8_offline_idempotence (msg : RMsg) (stored : Option (List RMsg))
    (hs : uniqueSigs stored) :
    (ReliableMessageTable.cache_reliable_message msg
        (ReliableMessageTable.cache_reliable_message msg stored).1 =
      ((ReliableMessageTable.cache_reliable_message msg stored).1, false))
  ∧ ∀ st', ReliableMessageTable.remove_reliable_message msg stored = (st', true) →
      ReliableMessageTable.remove_reliable_message msg st' = (st', false) := by
  constructor
  · match stored with
    | none =>
      simp [ReliableMessageTable.cache_reliable_message,
        ReliableMessageTable.find_message]
    | some l =>
      by_cases h : 0 ≤ ReliableMessageTable.find_message msg l
      · simp [ReliableMessageTable.cache_reliable_message, h]
      · have hmem : ¬ ReliableMessageTable.find_message msg
            (ReliableMessageTable.trim_overflow l ++ [msg]) < 0 := by
          rw [ReliableMessageTable.find_message_neg_iff]
          push_neg
          exact ⟨msg, by simp, rfl⟩
        simp [ReliableMessageTable.cache_reliable_message, h,
          Int.not_lt.mp hmem]
  · intro st' hrm
    match stored with
    | none =>
      simp [ReliableMessageTable.remove_reliable_message] at hrm
    | some l =>
      by_cases h : ReliableMessageTable.find_message msg l < 0
      · simp [ReliableMessageTable.remove_reliable_message, h] at hrm
      · have hst : st' = some (l.eraseIdx
            (ReliableMessageTable.find_message msg l).toNat) := by
          simp [ReliableMessageTable.remove_reliable_message, h] at hrm
          exact hrm.symm
        have herase := ReliableMessageTable.find_message_erase_found msg l hs
          (Int.not_lt.mp h)
        rw [hst]
        simp [ReliableMessageTable.remove_reliable_message, herase]

/-- Witness for C8: a two-message store; save the first message again, and
remove it twice. -/
theorem c8_witness :
    (ReliableMessageTable.cache_reliable_message (mkMsg 0)
        (ReliableMessageTable.cache_reliable_message (mkMsg 0) (some (bulkMsgs 2))).1 =
      ((ReliableMessageTable.cache_reliable_message (mkMsg 0) (some (bulkMsgs 2))).1, false))
  ∧ ReliableMessageTable.remove_reliable_message (mkMsg 0) (some [mkMsg 1]) =
      (some [mkMsg 1], false) :=
  ⟨(c8_offline_idempotence (mkMsg 0) (some (bulkMsgs 2)) (by unfold uniqueSigs; decide)).1,
   by decide⟩

theorem save_all_append (l : List RMsg) :
    ∀ acc : List RMsg, ((acc ++ l).map RMsg.signature).Nodup →
      acc.length + l.length ≤ ReliableMessageTable.CACHE_LIMIT + 1 →
      save_all l (some acc) = some (acc ++ l) := by
  induction l with
  | nil => intro acc _ _; simp [save_all]
  | cons m t ih =>
    intro acc hnd hlen
    have hdisj : ∀ x ∈ acc, x.signature ≠ m.signature := by
      rw [List.map_append, List.nodup_append] at hnd
      intro x hx he
      exact hnd.2.2 (List.mem_map_of_mem RMsg.signature hx)
        (by simp [he])
    have hfind : ReliableMessageTable.find_message m acc < 0 :=
      (ReliableMessageTable.find_message_neg_iff m acc).mpr hdisj
    have htrim : ReliableMessageTable.trim_overflow acc = acc := by
      apply ReliableMessageTable.trim_overflow_of_le
      simp at hlen
      omega
    have hstep : (ReliableMessageTable.cache_reliable_message m (some acc)).1 =
        some (acc ++ [m]) := by
      simp [ReliableMessageTable.cache_reliable_message, Int.not_le.mpr hfind, htrim]
    have hassoc : (acc ++ [m]) ++ t = acc ++ m :: t := by simp
    have : save_all (m :: t) (some acc) = save_all t (some (acc ++ [m])) := by
      simp only [save_all, List.foldl_cons]
      rw [hstep]
    rw [this, ih (acc ++ [m]) (by rw [hassoc]; exact hnd)
      (by simp at hlen ⊢; omega), hassoc]

theorem save_all_from_empty (m : RMsg) (t : List RMsg)
    (hnd : ((m :: t).map RMsg.signature).Nodup)
    (hlen : (m :: t).length ≤ ReliableMessageTable.CACHE_LIMIT + 1) :
    save_all (m :: t) none = some (m :: t) := by
  have hstep : (ReliableMessageTable.cache_reliable_message m none).1 = some [m] := by
    simp [ReliableMessageTable.cache_reliable_message]
  have : save_all (m :: t) none = save_all t (some [m]) := by
    simp only [save_all, List.foldl_cons]
    rw [hstep]
  rw [this]
  have := save_all_append t [m] (by simpa using hnd) (by simp at hlen ⊢; omega)
  simpa using this

theorem bulkMsgs_sig_nodup (n : Nat) :
    ((bulkMsgs n).map RMsg.signature).Nodup := by
  have : (bulkMsgs n).map RMsg.signature = (List.range n).map (fun i => some i) := by
    simp [bulkMsgs, List.map_map]
    intro a _
    rfl
  rw [this]
  exact (List.nodup_range n).map (fun a b h => Option.some.inj h)

theorem bulkMsgs_length (n : Nat) : (bulkMsgs n).length = n := by
  simp [bulkMsgs]

theorem save_all_bulk (n : Nat) (h0 : 0 < n)
    (hlen : n ≤ ReliableMessageTable.CACHE_LIMIT + 1) :
    save_all (bulkMsgs n) none = some (bulkMsgs n) := by
  match hb : bulkMsgs n with
  | [] =>
    have := bulkMsgs_length n
    rw [hb] at this
    simp at this
    omega
  | m :: t =>
    rw [← hb]
    rw [hb]
    apply save_all_from_empty
    · rw [← hb]; exact bulkMsgs_sig_nodup n
    · rw [← hb, bulkMsgs_length]; exact hlen

/-- **C7 (counterexample).** After saving 70 001 distinct messages the store
still holds every one of them: the very first inserted message is still
present (the cap is `CACHE_LIMIT = 71680`, so nothing is dropped), and the
remaining count reported by `fetch(start=0, limit=1024)` is 68 977, not in
the claimed 69 000–70 000 band. -/
theorem c7_counterexample :
    mkMsg 0 ∈ (save_all (bulkMsgs 70001) none).getD []
  ∧ (ReliableMessageTable.reliable_messages (save_all (bulkMsgs 70001) none)
      0 1024).2 = 68977 := by
  have hsave := save_all_bulk 70001 (by norm_num)
    (by norm_num [ReliableMessageTable.CACHE_LIMIT])
  constructor
  · rw [hsave]
    simp only [Option.getD_some]
    exact List.mem_map_of_mem mkMsg (List.mem_range.mpr (by norm_num))
  · rw [hsave, ReliableMessageTable.reliable_messages_eq]
    simp only [Option.getD_some, bulkMsgs_length]
    rw [ReliableMessageTable.get_range_snd, ReliableMessageTable.get_range_fst]
    norm_num

/-- **C7 (amended).** Offline store overflow: the per-receiver cap is
`CACHE_LIMIT = 71680`, so after saving 70 001 distinct messages for one
receiver nothing has been dropped: the store holds all 70 001 messages in
insertion order, `fetch(start=0, limit=1024)` returns the first 1024 of them
with `remaining = 68977`, and the very first inserted message is still
present. -/
theorem c7_amended_overflow :
    save_all (bulkMsgs 70001) none = some (bulkMsgs 70001)
  ∧ ReliableMessageTable.reliable_messages (save_all (bulkMsgs 70001) none)
      0 1024 = ((bulkMsgs 70001).take 1024, 68977)
  ∧ ((bulkMsgs 70001).take 1024).length = 1024
  ∧ mkMsg 0 ∈ (save_all (bulkMsgs 70001) none).getD [] := by
  have hsave := save_all_bulk 70001 (by norm_num)
    (by norm_num [ReliableMessageTable.CACHE_LIMIT])
  refine ⟨hsave, ?_, ?_, ?_⟩
  · rw [hsave, ReliableMessageTable.reliable_messages_eq]
    simp only [Option.getD_some, bulkMsgs_length]
    rw [ReliableMessageTable.get_range_snd, ReliableMessageTable.get_range_fst]
    norm_num
    congr 1
  · rw [List.length_take, bulkMsgs_length]
    omega
  · rw [hsave]
    simp only [Option.getD_some]
    exact List.mem_map_of_mem mkMsg (List.mem_range.mpr (by norm_num))

set_option maxRecDepth 8192 in
/-- **C10.** `MessageDatabase.reliable_messages` ignores its `start` and
`limit` parameters — for every store and all values it returns the table's
fetch with the defaults `(0, 1024)` — and consequently every page the
offline-reload loop of `load_cached_messages` queues equals the head page of
the store, whatever `start` the loop has advanced to. -/
theorem c10_reliable_messages_ignores_range (stored : Option (List RMsg))
    (start limit : Int) (fuel : Nat) (s : Int) (t : Nat) :
    MessageDatabase.reliable_messages stored start limit =
      ReliableMessageTable.reliable_messages stored 0 1024
  ∧ ∀ page ∈ load_cached_pages stored fuel s t,
      page = (ReliableMessageTable.reliable_messages stored 0 1024).1 := by
  refine ⟨rfl, ?_⟩
  induction fuel generalizing s t with
  | zero =>
    intro page hp
    simp [load_cached_pages] at hp
  | succ k ih =>
    intro page hp
    simp only [load_cached_pages] at hp
    split_ifs at hp
    · rw [List.mem_singleton] at hp
      subst hp
      rfl
    · rw [List.mem_cons] at hp
      rcases hp with hp | hp
      · subst hp
        rfl
      · exact ih _ _ page hp
    · rw [List.mem_singleton] at hp
      subst hp
      rfl

/-- **C9.** Monotone session activity: a `set_active(active, when)` call with
an explicit positive timestamp `when` not later than the last recorded one
returns `false` and changes nothing; with a later timestamp the flag and
timestamp change exactly when the new value differs from the current one
(and then `last_active` becomes `when`). -/
theorem c9_set_active_monotone (st : GateKeeper) (a : Bool) (w now : Int)
    (hw : 0 < w) :
    (w ≤ st.last_active → GateKeeper.set_active st a (some w) now = (st, false))
  ∧ (st.last_active < w → st.active ≠ a →
      GateKeeper.set_active st a (some w) now = (⟨a, w⟩, true))
  ∧ (st.active = a → GateKeeper.set_active st a (some w) now = (st, false)) := by
  have hw0 : ¬ w ≤ 0 := by omega
  refine ⟨?_, ?_, ?_⟩
  · intro hle
    simp [GateKeeper.set_active, hw0, hle]
  · intro hlt hne
    have hle : ¬ w ≤ st.last_active := by omega
    simp [GateKeeper.set_active, hw0, hle, hne]
  · intro heq
    by_cases hle : w ≤ st.last_active
    · simp [GateKeeper.set_active, hw0, hle]
    · simp [GateKeeper.set_active, hw0, hle, heq]

/-- Witness for C9: the flag is `false` since time 5; a stale `set_active`
at time 3 is refused. -/
theorem c9_witness :
    GateKeeper.set_active ⟨false, 5⟩ true (some 3) 10 = (⟨false, 5⟩, false) :=
  (c9_set_active_monotone ⟨false, 5⟩ true 3 10 (by norm_num)).1 (by norm_num)

/-- **C1.** Handshake acceptance: for an inbound `Hello world!` handshake, a
presented session key equal to the issued one binds the session's identifier
to the message's sender, marks the session active, moves the session under
that ID in the SessionCenter (it is bound to the sender, and to no other ID),
and responds `DIM!`; a differing key leaves the session and center unchanged
and responds `DIM?` carrying the session's current key. -/
theorem c1_handshake_acceptance (sender : ID) (sess : SessionSt)
    (center : SessionCenter) (skey : Option String) :
    (skey = some sess.key →
      hs_process (.handshake "Hello world!" skey) sender sess center =
        ({ sess with identifier := some sender, active := true },
         SessionCenter.update_session center sess.key sender,
         [Content.handshake "DIM!" (some sess.key)])
      ∧ (sender, sess.key) ∈ SessionCenter.update_session center sess.key sender
      ∧ ∀ p ∈ SessionCenter.update_session center sess.key sender,
          p.2 = sess.key → p.1 = sender)
  ∧ (skey ≠ some sess.key →
      hs_process (.handshake "Hello world!" skey) sender sess center =
        (sess, center, [Content.handshake "DIM?" (some sess.key)])) := by
  constructor
  · intro h
    refine ⟨?_, ?_, ?_⟩
    · subst h
      simp [hs_process, handshake_accepted, HandshakeCommand.accepted]
    · simp [SessionCenter.update_session]
    · intro p hp hpk
      simp only [SessionCenter.update_session, List.mem_append] at hp
      rcases hp with hp | hp
      · have hf := (List.mem_filter.mp hp).2
        rw [hpk] at hf
        simp at hf
      · rw [List.mem_singleton] at hp
        rw [hp]
  · intro h
    simp [hs_process, h, HandshakeCommand.ask]

/-- **C3.** Cycle drop: a message whose `traces` already contains the local
station ID produces no secure message (and sends nothing back) whenever its
receiver is a station or a broadcast ID; a message not yet traced gets the
local station ID appended to its `traces` and continues through the
remaining verify steps. -/
theorem c3_cycle_drop (env : VerifyEnv) (msg : RMsg) :
    (env.localId ∈ msg.traces →
      (msg.receiver.etype = EntityType.STATION ∨ msg.receiver.is_broadcast = true) →
      (verify_message env msg).1 = none ∧ (verify_message env msg).2.1 = [])
  ∧ (env.localId ∉ msg.traces →
      verify_message env msg =
        ((verify_tail env { msg with traces := msg.traces ++ [env.localId] }).1,
         (verify_tail env { msg with traces := msg.traces ++ [env.localId] }).2,
         { msg with traces := msg.traces ++ [env.localId] })) := by
  constructor
  · intro ht hr
    rcases hr with hr | hr
    · simp [verify_message, check_traced, ht, hr]
    · by_cases hst : msg.sender.etype = EntityType.STATION ∨
          msg.receiver.etype = EntityType.STATION
      · simp [verify_message, check_traced, ht, hst]
      · simp [verify_message, check_traced, ht, hst, hr]
  · intro ht
    simp [verify_message, check_traced, ht]

/-- **C4.** Session gate: for a message that passes the cycle and signature
checks, whose receiver is neither the local station nor one of the plaintext
broadcast singletons `station@anywhere` / `anyone@anywhere`, an unbound or
inactive session makes the messenger send a `DIM?` handshake carrying the
session key back to the sender and return no secure message. -/
theorem c4_session_gate (env : VerifyEnv) (msg : RMsg)
    (htr : env.localId ∉ msg.traces)
    (hv : env.trusted msg.sender = true ∨ env.signatureValid = true)
    (h1 : msg.receiver ≠ env.localId)
    (h2 : msg.receiver ≠ Station.ANY)
    (h3 : msg.receiver ≠ ANYONE)
    (hs : env.sessionId = none ∨ env.sessionActive = false) :
    verify_message env msg =
      (none,
       [(env.localId, msg.sender, Content.handshake "DIM?" (some env.sessionKey))],
       { msg with traces := msg.traces ++ [env.localId] }) := by
  by_cases htrust : env.trusted msg.sender = true
  · rcases hs with hs | hs <;>
      simp [verify_message, check_traced, htr, verify_tail, htrust, hs,
        h1, h2, h3, HandshakeCommand.ask]
  · have hval : env.signatureValid = true := by tauto
    rcases hs with hs | hs <;>
      simp [verify_message, check_traced, htr, verify_tail, htrust, hval, hs,
        h1, h2, h3, HandshakeCommand.ask]

/-- Witness for C4: a user-to-user message on a fresh session with no bound
identifier. -/
theorem c4_witness :
    verify_message envC4 msgC4 =
      (none,
       [(envC4.localId, msgC4.sender,
         Content.handshake "DIM?" (some envC4.sessionKey))],
       { msgC4 with traces := msgC4.traces ++ [envC4.localId] }) :=
  c4_session_gate envC4 msgC4 (by decide) (Or.inl rfl) (by decide) (by decide)
    (by decide) (Or.inl rfl)

/-- **C5.** Roaming redirect: with a non-station user receiver, no stored
LoginCommand or a roaming station equal to the local one reports failure and
leaves the message untouched; otherwise the message is first pushed
unchanged to the roaming station's active sessions, and only if none accepts
is `msg['target']` set to the receiver and the message pushed to the
sessions bound to the local station's own ID (the bridge). -/
theorem c5_roaming_redirect (loginStation : ID → Option ID)
    (active_sessions : ID → List Bool) (current : ID) (msg : RMsg)
    (receiver : ID) (hr : receiver.etype ≠ EntityType.STATION) :
    (loginStation receiver = none →
      roam_message loginStation active_sessions current msg receiver = (msg, false))
  ∧ (loginStation receiver = some current →
      roam_message loginStation active_sessions current msg receiver = (msg, false))
  ∧ ∀ roaming, loginStation receiver = some roaming → roaming ≠ current →
      (push_once (active_sessions roaming) = true →
        roam_message loginStation active_sessions current msg receiver = (msg, true))
      ∧ (push_once (active_sessions roaming) = false →
        roam_message loginStation active_sessions current msg receiver =
          ({ msg with target := some receiver },
           push_once (active_sessions current))) := by
  refine ⟨?_, ?_, ?_⟩
  · intro h
    simp [roam_message, hr, h]
  · intro h
    simp [roam_message, hr, h]
  · intro roaming h hne
    constructor
    · intro hp
      simp [roam_message, hr, h, Ne.symm hne, push_twice, hp]
    · intro hp
      cases hpb : push_once (active_sessions current) <;>
        simp [roam_message, hr, h, Ne.symm hne, push_twice, hp, hpb]

/-- Witness for C5: alice's LoginCommand points at neighbor `s2`, which has
one accepting session; the message is delivered unchanged. -/
theorem c5_witness :
    roam_message (fun _ => some s2) (fun i => if i = s2 then [true] else [])
      localStation msgC4 alice = (msgC4, true) :=
  ((c5_roaming_redirect (fun _ => some s2)
      (fun i => if i = s2 then [true] else []) localStation msgC4 alice
      (by decide)).2.2 s2 rfl (by decide)).1 (by decide)

/-- **C2 (counterexample).** The server-side broadcast expansion
re-enumerates a target already listed in the message's `recipients`: with
`s1` a neighbor and `msgC2` carrying `recipients = [s1]` (and empty
`traces`), `broadcast_reliable_message` dispatches to `s1` again. -/
theorem c2_counterexample :
    s1 ∈ BroadcastRecipientManager.broadcast_targets [s1] [] (fun _ => none)
      localStation msgC2
  ∧ s1 ∈ msgC2.recipients := by
  constructor
  · decide
  · decide

/-- **C2 (amended).** The octopus outgoing fan-out keeps the claimed
bookkeeping: newly enumerated targets are disjoint from the carried
`recipients` list, the list is updated to the union of the old entries and
the new targets before forwarding, and every forwarded copy carries the
updated list.  The server-side expansion
`BroadcastRecipientManager.get_recipients` instead excludes only the IDs in
`traces` (so a target already in `recipients` can be enumerated again, as
the counterexample shows) and never touches the `recipients` field. -/
theorem c2_amended_recipients_bookkeeping (outerKeys : List ID) (msg : RMsg)
    (all_neighbors station_bots : List ID) (ans : String → Option ID)
    (m2 : RMsg) (receiver : ID) :
    (∀ t ∈ (Octopus.outgo_message outerKeys msg).2.1, t ∉ msg.recipients)
  ∧ (∀ x, x ∈ msg.recipients ∨ x ∈ (Octopus.outgo_message outerKeys msg).2.1 →
      x ∈ (Octopus.outgo_message outerKeys msg).1.recipients)
  ∧ (∀ pr ∈ (Octopus.outgo_message outerKeys msg).2.2,
      pr.2.recipients = (Octopus.outgo_message outerKeys msg).1.recipients)
  ∧ (∀ t ∈ BroadcastRecipientManager.get_recipients all_neighbors station_bots
        ans m2 receiver, t ∉ m2.traces) := by
  refine ⟨?_, ?_, ?_, ?_⟩
  · intro t htm
    cases hn : msg.neighbor <;>
      · simp only [Octopus.outgo_message, hn] at htm
        have := (List.mem_filter.mp htm).2
        simpa [List.elem_iff] using this
  · intro x hx
    cases hn : msg.neighbor <;>
      · simp only [Octopus.outgo_message, hn] at hx ⊢
        simp only [List.mem_append]
        rcases hx with hx | hx
        · exact Or.inl hx
        · exact Or.inr hx
  · intro pr hpr
    cases hn : msg.neighbor <;>
      · simp only [Octopus.outgo_message, hn, List.mem_map] at hpr
        obtain ⟨t, _, hteq⟩ := hpr
        rw [← hteq]
        simp [Octopus.outgo_message, hn]
  · intro t htm
    simp only [BroadcastRecipientManager.get_recipients] at htm
    split_ifs at htm with hevery heveryone huser
    · rw [List.mem_append] at htm
      rcases htm with htm | htm <;>
        · have := (List.mem_filter.mp htm).2
          simpa [List.elem_iff] using this
    · have := (List.mem_filter.mp htm).2
      simpa [List.elem_iff] using this
    · split at htm
      · simp at htm
      · split at htm
        · split_ifs at htm with hbt
          · simp at htm
          · rw [List.mem_singleton] at htm
            subst htm
            simpa [List.elem_iff] using hbt
        · simp at htm
    · simp at htm

end Dimples
